import Mathlib

/-!
Verification of the transcript segmentation algorithm, the time formatter and
the orchestration workflow of `src/index.ts` (class `Transcriber`).

The JavaScript source is shallowly embedded as follows:

* JS numbers (fractional seconds) are modelled as `ℚ`; `Math.floor` as `Int.floor`.
* JS strings are Lean `String`s; `s.slice(0, -1)` is `String.dropRight s 1` and
  `(zeros + s).slice(-n)` is dropping all but the last `n` characters.
* A JS `TypeError` (reading a property of `undefined`, e.g. `items[-1].end_time`
  or `items[0]` of an empty array) aborts the computation; fallible code is
  therefore modelled in `Option`, with `none` for such a crash.
* The `forEach` accumulator state of `convertJsonToSrt` (emitted output,
  `subtitleIndex`, `current_start`, `nextline`) is threaded explicitly through
  `segStep` / `segRun`; each `convertedOutput +=` block that writes one
  subtitle entry is modelled as appending one structured `Cue`, and the final
  string rendering is `convertJsonToSrtOutput`.
* The orchestration method `transcribe` is modelled as a pure function of an
  environment describing the responses of the external collaborators (file
  system, S3, Transcribe service); it returns the ordered trace of remote
  calls it performed together with its outcome.
-/

/-- Model of `padString` (index.ts lines 17-19):
`(new Array(length + 1).join('0') + str).slice(-length)` — prepend `length`
zero characters and keep only the last `length` characters (all call sites use
a positive `length`, where JS `slice(-length)` takes the last `length` chars). -/
def padString (str : String) (length : Nat) : String :=
  let l := List.replicate length '0' ++ str.data
  String.mk (l.drop (l.length - length))

/-- Model of JS `Number.prototype.toFixed(3)` as used in `secondsToMinutes`:
round to the nearest multiple of 1/1000 (ties away from zero, i.e. the larger
`n` per the ECMAScript spec), and print with exactly three fraction digits. -/
def toFixed3 (x : ℚ) : String :=
  let sign := if x < 0 then "-" else ""
  let y := if x < 0 then -x else x
  let n : ℤ := ⌊y * 1000 + 1 / 2⌋
  sign ++ toString (n / 1000) ++ "." ++ padString (toString (n % 1000)) 3

/-- Model of `secondsToMinutes` (index.ts lines 21-33): split a fractional
second count into hours, minutes and seconds, format the seconds with three
fraction digits and pad every field with `padString`. -/
def secondsToMinutes (q : ℚ) : String :=
  let hours : ℤ := ⌊q / 3600⌋
  let total : ℚ := q - (hours : ℚ) * 3600
  let minutes : ℤ := ⌊total / 60⌋
  let seconds : String := toFixed3 (total - (minutes : ℚ) * 60)
  padString (toString hours) 2 ++ ":" ++ padString (toString minutes) 2 ++ ":" ++
    padString seconds 6

/-- Item kind of the `IItem` interface: `'pronunciation' | 'punctuation'`. -/
inductive ItemType
  | pronunciation
  | punctuation
deriving DecidableEq

/-- One entry of `IItem.alternatives` (interface `IAlternative`). -/
structure IAlternative where
  confidence : ℚ
  content : String
deriving DecidableEq

/-- One transcript token (interface `IItem`). -/
structure IItem where
  start_time : ℚ
  end_time : ℚ
  alternatives : List IAlternative
  type : ItemType
deriving DecidableEq

/-- One emitted subtitle entry of `convertJsonToSrt`: the `subtitleIndex`
written before the timestamps, the raw start and end offsets that are passed
to `secondsToMinutes`, and the text line. -/
structure Cue where
  index : Nat
  start : ℚ
  endTime : ℚ
  text : String
deriving DecidableEq

/-- The mutable state of the `forEach` pass of `convertJsonToSrt`:
the subtitle entries emitted so far (the `convertedOutput` accumulation),
`subtitleIndex`, `current_start` and `nextline`. -/
structure SegState where
  cues : List Cue
  subtitleIndex : Nat
  current_start : ℚ
  nextline : String
deriving DecidableEq

/-- One iteration of the `forEach` body of `convertJsonToSrt` (index.ts lines
285-310) on the item at position `i`.  `prev` is `items[i-1]` (`none` when
`i = 0`, where the source reads `items[-1].end_time`, a `TypeError`) and
`next` is `items[i+1]`.  `item.alternatives[0]` of an empty alternatives list
is likewise a `TypeError` (`none`). -/
def segStep (prev : Option IItem) (item : IItem) (next : Option IItem)
    (st : SegState) : Option SegState :=
  match item.type with
  | ItemType.punctuation =>
    match item.alternatives.head? with
    | none => none
    | some alt =>
      let nl := st.nextline.dropRight 1 ++ alt.content
      match prev with
      | none => none
      | some p =>
        some { cues := st.cues ++ [⟨st.subtitleIndex, st.current_start, p.end_time, nl⟩]
               subtitleIndex := st.subtitleIndex + 1
               current_start := match next with
                 | some n => n.start_time
                 | none => st.current_start
               nextline := "" }
  | ItemType.pronunciation =>
    if item.end_time - st.current_start > 5 then
      match prev with
      | none => none
      | some p =>
        match item.alternatives.head? with
        | none => none
        | some alt =>
          some { cues := st.cues ++ [⟨st.subtitleIndex, st.current_start, p.end_time, st.nextline⟩]
                 subtitleIndex := st.subtitleIndex + 1
                 current_start := item.start_time
                 nextline := alt.content ++ " " }
    else
      match item.alternatives.head? with
      | none => none
      | some alt =>
        some { st with nextline := st.nextline ++ alt.content ++ " " }

/-- The whole `forEach` pass: run `segStep` on `item` (whose predecessor is
`prev` and whose successor, if any, is the head of `rest`) and continue over
`rest`. -/
def segRun (prev : Option IItem) (item : IItem) (rest : List IItem)
    (st : SegState) : Option SegState :=
  match rest with
  | [] => segStep prev item none st
  | next :: rest' =>
    match segStep prev item (some next) st with
    | none => none
    | some st' => segRun (some item) next rest' st'

/-- End offset of the trailing subtitle entry (index.ts lines 313-317):
`items[items.length - 1].end_time` when the last item is not punctuation,
otherwise `items[items.length - 2].end_time`; reading past the front of the
list (`items[-1]`) is a `TypeError` (`none`). -/
def trailingEnd (items : List IItem) : Option ℚ :=
  match items.getLast? with
  | none => none
  | some lastItem =>
    if lastItem.type ≠ ItemType.punctuation then some lastItem.end_time
    else (items.dropLast.getLast?).map IItem.end_time

/-- Model of `convertJsonToSrt` (index.ts lines 277-326), producing the list
of emitted subtitle entries.  The source reads `items[0].start_time`
unconditionally (a `TypeError` for an empty sequence), runs the `forEach`
pass, computes the trailing end offset, and appends one final entry when
`nextline` is non-empty. -/
def convertJsonToSrt (items : List IItem) : Option (List Cue) :=
  match items with
  | [] => none
  | first :: rest =>
    match segRun none first rest ⟨[], 1, first.start_time, ""⟩ with
    | none => none
    | some st =>
      match trailingEnd (first :: rest) with
      | none => none
      | some e =>
        if st.nextline ≠ "" then
          some (st.cues ++ [⟨st.subtitleIndex, st.current_start, e, st.nextline⟩])
        else
          some st.cues

/-- Rendering of one loop-emitted subtitle entry, as written by the three
`convertedOutput +=` statements of the loop body. -/
def cueBlock (c : Cue) : String :=
  toString c.index ++ "\n" ++ secondsToMinutes c.start ++ " --> " ++
    secondsToMinutes c.endTime ++ "\n" ++ c.text ++ "\n\n"

/-- The SRT string returned by `convertJsonToSrt`: the loop-emitted blocks
followed, when `nextline` is non-empty, by the trailing block (which the
source writes without a final newline). -/
def convertJsonToSrtOutput (items : List IItem) : Option String :=
  match items with
  | [] => none
  | first :: rest =>
    match segRun none first rest ⟨[], 1, first.start_time, ""⟩ with
    | none => none
    | some st =>
      match trailingEnd (first :: rest) with
      | none => none
      | some e =>
        let body := String.join (st.cues.map cueBlock)
        if st.nextline ≠ "" then
          some (body ++ toString st.subtitleIndex ++ "\n" ++
            secondsToMinutes st.current_start ++ " --> " ++ secondsToMinutes e ++ "\n" ++
            st.nextline)
        else
          some body

/-- The function `padString` always returns exactly `length` characters: the zero prefix
guarantees at least `length`, and `slice(-length)` keeps exactly the last
`length` of them (so over-long input, such as a three-digit hour count, is
truncated from the left). -/
lemma padString_length (s : String) (n : Nat) : (padString s n).length = n := by
  simp only [padString, String.length, List.length_drop, List.length_append,
    List.length_replicate]
  omega

/-- Unfolding of `secondsToMinutes` into its three padded fields. -/
lemma secondsToMinutes_eq (q : ℚ) :
    secondsToMinutes q =
      padString (toString ⌊q / 3600⌋) 2 ++ ":" ++
        padString (toString ⌊(q - (⌊q / 3600⌋ : ℚ) * 3600) / 60⌋) 2 ++ ":" ++
        padString (toFixed3 ((q - (⌊q / 3600⌋ : ℚ) * 3600) -
          (⌊(q - (⌊q / 3600⌋ : ℚ) * 3600) / 60⌋ : ℚ) * 60)) 6 := rfl

/-- C1: for the empty transcript item sequence, `convertJsonToSrt` does NOT
fail with an `EmptyTranscript` error: the source reads
`json.results.items[0].start_time` unconditionally, which is a `TypeError`
(modelled as `none`) on an empty sequence — there is no `EmptyTranscript`
guard anywhere in the code. -/
theorem convertJsonToSrt_empty_crashes : convertJsonToSrt [] = none := rfl

/-- C2: a punctuation item always closes the current cue, with no duration
condition: whenever `segStep` succeeds on a punctuation item it appends
exactly one cue with `start = current_start`, `end` = the previous item's end
time, and the punctuation attached to the buffered text with one trailing
character removed.  Concretely, `[word("hi",0,0.5), punctuation(".",0.5,0.5)]`
yields the single cue `(1, 0, 0.5, "hi.")`. -/
theorem punctuation_closes_cue :
    (∀ (prevItem item : IItem) (next : Option IItem) (st st' : SegState)
        (alt : IAlternative),
        item.type = ItemType.punctuation →
        item.alternatives.head? = some alt →
        segStep (some prevItem) item next st = some st' →
        st'.cues = st.cues ++
          [⟨st.subtitleIndex, st.current_start, prevItem.end_time,
            st.nextline.dropRight 1 ++ alt.content⟩]) ∧
    convertJsonToSrt
        [⟨0, 0.5, [⟨1, "hi"⟩], ItemType.pronunciation⟩,
         ⟨0.5, 0.5, [⟨1, "."⟩], ItemType.punctuation⟩]
      = some [⟨1, 0, 0.5, "hi."⟩] := by
  constructor
  · intro prevItem item next st st' alt hty hA h
    simp only [segStep, hty, hA] at h
    injection h with h
    subst h
    rfl
  · norm_num [convertJsonToSrt, segRun, segStep, trailingEnd]
    decide

/-- C3: on a non-punctuation item whose end time exceeds the cue start by more
than 5 seconds, `segStep` closes the current cue at the previous item's end
time and restarts the cue at the triggering item's start time.  Concretely,
`[word("a",0,1), word("b",6,7)]` yields exactly two cues, the first ending at
1 and the second starting at 6. -/
theorem duration_threshold_splits :
    (∀ (prevItem item : IItem) (next : Option IItem) (st st' : SegState)
        (alt : IAlternative),
        item.type = ItemType.pronunciation →
        item.end_time - st.current_start > 5 →
        item.alternatives.head? = some alt →
        segStep (some prevItem) item next st = some st' →
        st'.cues = st.cues ++
          [⟨st.subtitleIndex, st.current_start, prevItem.end_time, st.nextline⟩] ∧
        st'.current_start = item.start_time) ∧
    convertJsonToSrt
        [⟨0, 1, [⟨1, "a"⟩], ItemType.pronunciation⟩,
         ⟨6, 7, [⟨1, "b"⟩], ItemType.pronunciation⟩]
      = some [⟨1, 0, 1, "a "⟩, ⟨2, 6, 7, "b "⟩] := by
  constructor
  · intro prevItem item next st st' alt hty hgt hA h
    simp only [segStep, hty, hA, if_pos hgt] at h
    injection h with h
    subst h
    exact ⟨rfl, rfl⟩
  · norm_num [convertJsonToSrt, segRun, segStep, trailingEnd]
    decide

/-- C10: the cue-close step is NOT guarded at position 0: when the first item
of the sequence is punctuation, the source reads `items[-1].end_time`
(`undefined`), a `TypeError`; the model therefore crashes (`none`) on every
sequence starting with a punctuation item. -/
theorem leading_punctuation_crashes :
    ∀ (item : IItem) (rest : List IItem),
      item.type = ItemType.punctuation →
      convertJsonToSrt (item :: rest) = none := by
  intro item rest hty
  have hstep : ∀ next st, segStep none item next st = none := by
    intro next st
    simp only [segStep, hty]
    cases item.alternatives.head? <;> simp
  simp only [convertJsonToSrt]
  cases rest with
  | nil => simp [segRun, hstep]
  | cons next rest' => simp [segRun, hstep]

/-- Witness for C10 at the concrete input `[punctuation(".",0,0)]`. -/
theorem leading_punctuation_crashes_witness :
    convertJsonToSrt [⟨0, 0, [⟨1, "."⟩], ItemType.punctuation⟩] = none :=
  leading_punctuation_crashes ⟨0, 0, [⟨1, "."⟩], ItemType.punctuation⟩ [] rfl

/-- C4: whenever the `forEach` pass completes with a non-empty `nextline`
buffer, `convertJsonToSrt` appends exactly one trailing cue starting at the
final `current_start`, ending at the last item's end time when that item is
not punctuation, and at the second-to-last item's end time otherwise. -/
theorem trailing_cue_emitted :
    ∀ (first : IItem) (rest : List IItem) (st : SegState),
      segRun none first rest ⟨[], 1, first.start_time, ""⟩ = some st →
      st.nextline ≠ "" →
      (∀ lastItem, (first :: rest).getLast? = some lastItem →
          lastItem.type ≠ ItemType.punctuation →
          convertJsonToSrt (first :: rest) =
            some (st.cues ++
              [⟨st.subtitleIndex, st.current_start, lastItem.end_time, st.nextline⟩])) ∧
      (∀ lastItem secondToLast, (first :: rest).getLast? = some lastItem →
          lastItem.type = ItemType.punctuation →
          ((first :: rest).dropLast).getLast? = some secondToLast →
          convertJsonToSrt (first :: rest) =
            some (st.cues ++
              [⟨st.subtitleIndex, st.current_start, secondToLast.end_time, st.nextline⟩])) := by
  intro first rest st hrun hnl
  constructor
  · intro lastItem hlast hty
    have hte : trailingEnd (first :: rest) = some lastItem.end_time := by
      simp only [trailingEnd, hlast]
      rw [if_pos hty]
    simp only [convertJsonToSrt, hrun, hte]
    rw [if_pos hnl]
  · intro lastItem secondToLast hlast hty hstl
    have hte : trailingEnd (first :: rest) = some secondToLast.end_time := by
      simp only [trailingEnd, hlast]
      rw [if_neg (by simp [hty])]
      simp [hstl]
    simp only [convertJsonToSrt, hrun, hte]
    rw [if_pos hnl]

/-- Invariant of the segmentation pass: the emitted cue indices are exactly
`1..N`, `subtitleIndex` is the next index to be used, and the cue start
offsets followed by `current_start` form a non-decreasing chain. -/
def SegInv (st : SegState) : Prop :=
  st.cues.map Cue.index = List.range' 1 st.cues.length ∧
  st.subtitleIndex = st.cues.length + 1 ∧
  List.Chain' (fun a b => a ≤ b) (st.cues.map Cue.start ++ [st.current_start])

/-- Appending a cue carrying the next sequential index preserves the
`1..N` index shape. -/
lemma map_index_concat {cs : List Cue} {c : Cue}
    (h : cs.map Cue.index = List.range' 1 cs.length)
    (hc : c.index = cs.length + 1) :
    (cs ++ [c]).map Cue.index = List.range' 1 (cs ++ [c]).length := by
  have hlen : (cs ++ [c]).length = cs.length + 1 := by simp
  rw [hlen, List.range'_concat, List.map_append, h]
  simp [hc]
  omega

/-- Extending a non-decreasing chain that ends in `a` by some `b ≥ a`. -/
lemma chain'_le_concat {l : List ℚ} {a b : ℚ}
    (h : List.Chain' (fun x y => x ≤ y) (l ++ [a])) (hab : a ≤ b) :
    List.Chain' (fun x y => x ≤ y) ((l ++ [a]) ++ [b]) := by
  rw [List.chain'_append]
  refine ⟨h, List.chain'_singleton b, ?_⟩
  intro x hx y hy
  simp only [List.getLast?_concat, Option.mem_def, Option.some.injEq] at hx
  simp only [List.head?_cons, Option.mem_def, Option.some.injEq] at hy
  subst hx; subst hy; exact hab

/-- One loop iteration preserves the segmentation invariant when the times
are ordered: the cue start never moves backwards, and stays below the start
time of the next item to be processed. -/
lemma segStep_inv {prev : Option IItem} {item : IItem} {next : Option IItem}
    {st st' : SegState}
    (h : segStep prev item next st = some st')
    (hInv : SegInv st)
    (hcs : st.current_start ≤ item.start_time)
    (hse : item.start_time ≤ item.end_time)
    (hnext : ∀ n, next = some n → item.end_time ≤ n.start_time) :
    SegInv st' ∧ (∀ n, next = some n → st'.current_start ≤ n.start_time) := by
  obtain ⟨hIdx, hSub, hChain⟩ := hInv
  cases hty : item.type with
  | punctuation =>
    simp only [segStep, hty] at h
    cases hA : item.alternatives.head? with
    | none => rw [hA] at h; cases h
    | some alt =>
      rw [hA] at h
      cases prev with
      | none => cases h
      | some p =>
        injection h with h
        subst h
        cases next with
        | none =>
          refine ⟨⟨map_index_concat hIdx hSub, by simp [hSub], ?_⟩, ?_⟩
          · simpa [List.map_append] using chain'_le_concat hChain le_rfl
          · intro n hn
            cases hn
        | some m =>
          refine ⟨⟨map_index_concat hIdx hSub, by simp [hSub], ?_⟩, ?_⟩
          · simpa [List.map_append] using
              chain'_le_concat hChain (hcs.trans (hse.trans (hnext m rfl)))
          · intro n hn
            injection hn with hn
            subst hn
            exact le_rfl
  | pronunciation =>
    simp only [segStep, hty] at h
    by_cases hgt : item.end_time - st.current_start > 5
    · rw [if_pos hgt] at h
      cases prev with
      | none => cases h
      | some p =>
        cases hA : item.alternatives.head? with
        | none => rw [hA] at h; cases h
        | some alt =>
          rw [hA] at h
          injection h with h
          subst h
          refine ⟨⟨map_index_concat hIdx hSub, by simp [hSub], ?_⟩, ?_⟩
          · simpa [List.map_append] using chain'_le_concat hChain hcs
          · intro n hn
            exact hse.trans (hnext n hn)
    · rw [if_neg hgt] at h
      cases hA : item.alternatives.head? with
      | none => rw [hA] at h; cases h
      | some alt =>
        rw [hA] at h
        injection h with h
        subst h
        refine ⟨⟨hIdx, hSub, hChain⟩, ?_⟩
        intro n hn
        exact hcs.trans (hse.trans (hnext n hn))

/-- The whole pass preserves the segmentation invariant when item times are
non-decreasing across the sequence. -/
lemma segRun_inv :
    ∀ (rest : List IItem) (prev : Option IItem) (item : IItem) (st st' : SegState),
      segRun prev item rest st = some st' →
      SegInv st →
      st.current_start ≤ item.start_time →
      (∀ it ∈ item :: rest, it.start_time ≤ it.end_time) →
      List.Chain' (fun a b => a.end_time ≤ b.start_time) (item :: rest) →
      SegInv st'
  | [], prev, item, st, st', h, hInv, hcs, hse, _ => by
    simp only [segRun] at h
    exact (segStep_inv h hInv hcs (hse item (by simp)) (by intro n hn; cases hn)).1
  | next :: rest', prev, item, st, st', h, hInv, hcs, hse, hch => by
    simp only [segRun] at h
    cases h1 : segStep prev item (some next) st with
    | none => rw [h1] at h; cases h
    | some st1 =>
      rw [h1] at h
      have hstep := segStep_inv h1 hInv hcs (hse item (by simp))
        (by intro n hn; injection hn with hn; subst hn
            exact (List.chain'_cons.mp hch).1)
      exact segRun_inv rest' (some item) next st1 st' h hstep.1 (hstep.2 next rfl)
        (fun it hit => hse it (List.mem_cons_of_mem item hit))
        (List.chain'_cons.mp hch).2

/-- C5: for every non-empty item sequence with non-decreasing times (each
item's start at most its end, each item's end at most the next item's start),
the cues produced by `convertJsonToSrt` carry index values exactly `1..N`
with no gaps and non-decreasing start offsets. -/
theorem cue_indices_and_starts :
    ∀ (items : List IItem) (cues : List Cue),
      items ≠ [] →
      (∀ it ∈ items, it.start_time ≤ it.end_time) →
      List.Chain' (fun a b => a.end_time ≤ b.start_time) items →
      convertJsonToSrt items = some cues →
      cues.map Cue.index = List.range' 1 cues.length ∧
      List.Chain' (fun a b : ℚ => a ≤ b) (cues.map Cue.start) := by
  intro items cues hne hse hch hconv
  cases items with
  | nil => exact absurd rfl hne
  | cons first rest =>
    simp only [convertJsonToSrt] at hconv
    cases hrun : segRun none first rest ⟨[], 1, first.start_time, ""⟩ with
    | none => rw [hrun] at hconv; cases hconv
    | some st =>
      rw [hrun] at hconv
      have hInv : SegInv st := by
        refine segRun_inv rest none first _ st hrun ⟨by simp, by simp, ?_⟩ le_rfl hse hch
        simp [List.chain'_singleton]
      obtain ⟨hIdx, hSub, hChain⟩ := hInv
      cases hte : trailingEnd (first :: rest) with
      | none => rw [hte] at hconv; cases hconv
      | some e =>
        rw [hte] at hconv
        dsimp only at hconv
        by_cases hnl : st.nextline ≠ ""
        · rw [if_pos hnl] at hconv
          injection hconv with hconv
          subst hconv
          refine ⟨map_index_concat hIdx hSub, ?_⟩
          simpa [List.map_append] using hChain
        · rw [if_neg hnl] at hconv
          injection hconv with hconv
          subst hconv
          exact ⟨hIdx, (List.chain'_append.mp hChain).1⟩

/-- C6 counterexample: at 360000 seconds (100 hours) the hour field does NOT
grow beyond 2 digits — `padString(hours, 2)` keeps only the LAST two
characters of `"100"`, so the output is `"00:00:00.000"`, not a string with
a leading `"100"` hour field. -/
theorem hours_truncated_at_100 :
    secondsToMinutes 360000 = "00:00:00.000" ∧
    (secondsToMinutes 360000).data.take 3 ≠ ['1', '0', '0'] := by
  have h : secondsToMinutes 360000 = "00:00:00.000" := by
    rw [secondsToMinutes_eq]
    norm_num [toFixed3]
    decide
  exact ⟨h, by rw [h]; decide⟩

/-- C6 amended: for every non-negative input the result is three fields
separated by colons, with the hour and minute fields exactly 2 characters and
the seconds field exactly 6 characters (zero-padded, and truncated from the
left when over-long, so hours of 100 or more wrap to their last two digits);
`3661.25` formats as `"01:01:01.250"` while `360000` (100 hours) yields
`"00:00:00.000"`. -/
theorem secondsToMinutes_shape :
    (∀ q : ℚ, 0 ≤ q →
      ∃ hh mm ss : String,
        secondsToMinutes q = hh ++ ":" ++ mm ++ ":" ++ ss ∧
        hh.length = 2 ∧ mm.length = 2 ∧ ss.length = 6) ∧
    secondsToMinutes 3661.25 = "01:01:01.250" ∧
    secondsToMinutes 360000 = "00:00:00.000" := by
  refine ⟨?_, ?_, ?_⟩
  · intro q _
    exact ⟨_, _, _, secondsToMinutes_eq q, padString_length _ _, padString_length _ _,
      padString_length _ _⟩
  · rw [secondsToMinutes_eq]
    norm_num [toFixed3]
    decide
  · rw [secondsToMinutes_eq]
    norm_num [toFixed3]
    decide

/-- Witness for the amended C6 at the spec's own example value `3661.25`. -/
theorem secondsToMinutes_shape_witness :
    (0 : ℚ) ≤ 3661.25 ∧
    ∃ hh mm ss : String,
      secondsToMinutes 3661.25 = hh ++ ":" ++ mm ++ ":" ++ ss ∧
      hh.length = 2 ∧ mm.length = 2 ∧ ss.length = 6 :=
  ⟨by norm_num, secondsToMinutes_shape.1 3661.25 (by norm_num)⟩

/-- Terminal and non-terminal statuses of a transcription job
(`TranscriptionJobStatus`). -/
inductive JobStatus
  | queued
  | in_progress
  | completed
  | failed
deriving DecidableEq

/-- One `getTranscriptionJob` response: the job status, the
`Transcript.TranscriptFileUri` when a transcript object is present (`none`
models an absent `Transcript`, whose dereference is a `TypeError`), and the
service-reported `FailureReason`. -/
structure TranscriptionJob where
  status : JobStatus
  transcript_uri : Option String
  failureReason : Option String
deriving DecidableEq

/-- The `TranscribeParams` interface (index.ts lines 61-66). -/
structure TranscribeParams where
  bucketName : String
  inputFile : String
  outputFile : String
  deleteFile : Bool
deriving DecidableEq

/-- One externally visible operation performed by `transcribe`, in order:
S3 and Transcribe API calls, the result fetch, and the local output write. -/
inductive Effect
  | listBuckets
  | createBucket (bucket : String)
  | putObject (bucket key : String)
  | startTranscriptionJob (jobName languageCode mediaFormat mediaFileUri : String)
  | getTranscriptionJob
  | fetchUrl (url : String)
  | writeFile (path : String)
  | deleteObject (bucket key : String)
deriving DecidableEq

/-- The ways a run of `transcribe` can abort: the thrown
`Error(fileName + ' does not exist')` from `uploadFile`, or a JS `TypeError`
from dereferencing `undefined` (absent transcript, or a fault inside
`convertJsonToSrt`). -/
inductive RunError
  | fileNotFound (file : String)
  | typeError
deriving DecidableEq

/-- Responses of the external collaborators for one run: the region and the
generated `uuid` (inputs of the job name and S3 URI), the bucket names S3
reports, whether `existsSync` finds the input file, the successive
`getTranscriptionJob` responses, and the items of the fetched result JSON. -/
structure AwsEnv where
  region : String
  uuid : String
  buckets : List String
  fileExists : Bool
  polls : List TranscriptionJob
  fetched : List IItem
deriving DecidableEq

/-- Model of Node's `path.basename`: the part of the path after the last
separator. -/
def basename (path : String) : String :=
  String.mk ((path.data.reverse.takeWhile (fun c => c ≠ '/')).reverse)

/-- The polling loop of `transcribe` (index.ts lines 134-139): consume
`getTranscriptionJob` responses while the status is `IN_PROGRESS`; return the
first non-in-progress job together with the number of `getTranscriptionJob`
calls made.  `none` means the modelled response list was exhausted while the
job was still in progress (the source would keep polling). -/
def pollLoop : List TranscriptionJob → Option (TranscriptionJob × Nat)
  | [] => none
  | j :: rest =>
    if j.status = JobStatus.in_progress then
      match pollLoop rest with
      | none => none
      | some (t, n) => some (t, n + 1)
    else
      some (j, 1)

/-- Model of `Transcriber.transcribe` (index.ts lines 105-160): check bucket
existence (one `listBuckets` call), create the bucket when absent, check
`existsSync` and upload (`uploadFile`), submit the job with language code
`'en-US'` and media format `'mp4'` (`startTranscription`, lines 245-256),
poll until the status is no longer `IN_PROGRESS`, dereference
`job.Transcript.TranscriptFileUri` (a `TypeError` when the transcript is
absent — the source never branches on `FAILED`), fetch the result, convert it,
write the output file, and delete the uploaded object when `deleteFile` is
set.  Returns the ordered trace of effects and the outcome (`none` when the
modelled poll responses never leave `IN_PROGRESS`). -/
def transcribe (env : AwsEnv) (params : TranscribeParams) :
    List Effect × Option (Except RunError Unit) :=
  let mediaFile := basename params.inputFile
  let jobName := "transcribe_" ++ env.uuid ++ "_" ++ mediaFile
  let uri := "https://s3-" ++ env.region ++ ".amazonaws.com/" ++ params.bucketName ++
    "/" ++ mediaFile
  let tr1 : List Effect :=
    if env.buckets.contains params.bucketName then [Effect.listBuckets]
    else [Effect.listBuckets, Effect.createBucket params.bucketName]
  if env.fileExists = false then
    (tr1, some (Except.error (RunError.fileNotFound params.inputFile)))
  else
    let tr3 := tr1 ++ [Effect.putObject params.bucketName mediaFile,
      Effect.startTranscriptionJob jobName "en-US" "mp4" uri]
    match pollLoop env.polls with
    | none => (tr3 ++ List.replicate env.polls.length Effect.getTranscriptionJob, none)
    | some (job, n) =>
      let tr4 := tr3 ++ List.replicate n Effect.getTranscriptionJob
      match job.transcript_uri with
      | none => (tr4, some (Except.error RunError.typeError))
      | some url =>
        let tr5 := tr4 ++ [Effect.fetchUrl url]
        match convertJsonToSrt env.fetched with
        | none => (tr5, some (Except.error RunError.typeError))
        | some _ =>
          let tr6 := tr5 ++ [Effect.writeFile params.outputFile]
          if params.deleteFile then
            (tr6 ++ [Effect.deleteObject params.bucketName mediaFile], some (Except.ok ()))
          else
            (tr6, some (Except.ok ()))

/-- The media formats submitted to `startTranscriptionJob` within a trace. -/
def submittedFormats (trace : List Effect) : List String :=
  trace.filterMap fun e =>
    match e with
    | Effect.startTranscriptionJob _ _ fmt _ => some fmt
    | _ => none

/-- C7: when the polling loop terminates on a job whose transcript is absent
(as it is for a job in terminal `FAILED` status), `transcribe` does NOT abort
with a `JobFailed` error carrying the failure reason — no such error exists in
the code (the only comment is a TODO at line 141); instead it dereferences
`job.Transcript` (`undefined`), a `TypeError`, regardless of the recorded
failure reason. -/
theorem failed_job_not_handled :
    ∀ (env : AwsEnv) (params : TranscribeParams) (job : TranscriptionJob) (n : Nat),
      env.fileExists = true →
      pollLoop env.polls = some (job, n) →
      job.status = JobStatus.failed →
      job.transcript_uri = none →
      (transcribe env params).2 = some (Except.error RunError.typeError) := by
  intro env params job n hf hpoll _ huri
  simp only [transcribe, hf, hpoll, huri]
  simp

/-- Witness for C7: a run whose second poll reports `FAILED` with a failure
reason and no transcript ends in the modelled `TypeError`, not a `JobFailed`
abort. -/
theorem failed_job_not_handled_witness :
    (⟨"us-east-1", "u", ["b"], true,
        [⟨JobStatus.in_progress, none, none⟩,
         ⟨JobStatus.failed, none, some "Internal error"⟩], []⟩ : AwsEnv).fileExists = true ∧
    pollLoop [⟨JobStatus.in_progress, none, none⟩,
        ⟨JobStatus.failed, none, some "Internal error"⟩]
      = some (⟨JobStatus.failed, none, some "Internal error"⟩, 2) ∧
    (transcribe
        ⟨"us-east-1", "u", ["b"], true,
          [⟨JobStatus.in_progress, none, none⟩,
           ⟨JobStatus.failed, none, some "Internal error"⟩], []⟩
        ⟨"b", "in.mp4", "out.srt", false⟩).2
      = some (Except.error RunError.typeError) :=
  ⟨rfl, rfl,
    failed_job_not_handled _ _ ⟨JobStatus.failed, none, some "Internal error"⟩ 2
      rfl rfl rfl rfl⟩

/-- C8 counterexample: in a run whose input file is missing, a storage network
call IS issued before the missing file is detected — `transcribe` first calls
`listBuckets` (and here also `createBucket`) and only then reaches the
`existsSync` check inside `uploadFile`, so the trace of the failing run is not
empty. -/
theorem network_call_before_file_check :
    transcribe ⟨"us-east-1", "u", [], false, [], []⟩ ⟨"b", "in.mp4", "out.srt", false⟩
      = ([Effect.listBuckets, Effect.createBucket "b"],
         some (Except.error (RunError.fileNotFound "in.mp4"))) := rfl

/-- C8 amended: a run whose input file does not exist fails with the
file-not-found error, and issues no upload, no transcription-service call, no
fetch, no write and no delete — but the bucket listing (and, for an absent
bucket, the bucket creation) network calls have already been made by then. -/
theorem missing_file_aborts_before_upload :
    ∀ (env : AwsEnv) (params : TranscribeParams),
      env.fileExists = false →
      (transcribe env params).2 =
        some (Except.error (RunError.fileNotFound params.inputFile)) ∧
      ∀ e ∈ (transcribe env params).1,
        e = Effect.listBuckets ∨ e = Effect.createBucket params.bucketName := by
  intro env params hf
  simp only [transcribe, hf]
  constructor
  · simp
  · intro e he
    by_cases hb : params.bucketName ∈ env.buckets
    · simp [hb] at he
      simp [he]
    · simp [hb] at he
      tauto

/-- Witness for the amended C8: a concrete missing-file run fails with
`fileNotFound` and its trace holds only the two bucket calls. -/
theorem missing_file_aborts_before_upload_witness :
    (⟨"us-east-1", "u", [], false, [], []⟩ : AwsEnv).fileExists = false ∧
    (transcribe ⟨"us-east-1", "u", [], false, [], []⟩
        ⟨"b", "in.mp4", "out.srt", false⟩).2
      = some (Except.error (RunError.fileNotFound "in.mp4")) ∧
    ∀ e ∈ (transcribe ⟨"us-east-1", "u", [], false, [], []⟩
        ⟨"b", "in.mp4", "out.srt", false⟩).1,
      e = Effect.listBuckets ∨ e = Effect.createBucket "b" :=
  ⟨rfl,
    (missing_file_aborts_before_upload ⟨"us-east-1", "u", [], false, [], []⟩
      ⟨"b", "in.mp4", "out.srt", false⟩ rfl).1,
    (missing_file_aborts_before_upload ⟨"us-east-1", "u", [], false, [], []⟩
      ⟨"b", "in.mp4", "out.srt", false⟩ rfl).2⟩

/-- C9 counterexample: the media format submitted by `transcribe` is NOT
derived from the uploaded file — it is the hard-coded constant `'mp4'`
(index.ts line 249): a run on `a.wav` and a run on `b.mp4` both submit the
format `"mp4"`. -/
theorem media_format_not_derived :
    submittedFormats (transcribe ⟨"us-east-1", "u", ["b"], true, [], []⟩
        ⟨"b", "a.wav", "o.srt", false⟩).1 = ["mp4"] ∧
    submittedFormats (transcribe ⟨"us-east-1", "u", ["b"], true, [], []⟩
        ⟨"b", "b.mp4", "o.srt", false⟩).1 = ["mp4"] :=
  ⟨rfl, rfl⟩

/-- C9 amended: every job submission in every run uses the fixed language
code `'en-US'` and the fixed, input-independent media format `'mp4'`. -/
theorem submission_lang_and_format_fixed :
    ∀ (env : AwsEnv) (params : TranscribeParams) (jn lang fmt uri : String),
      Effect.startTranscriptionJob jn lang fmt uri ∈ (transcribe env params).1 →
      lang = "en-US" ∧ fmt = "mp4" := by
  intro env params jn lang fmt uri h
  simp only [transcribe] at h
  by_cases hb : params.bucketName ∈ env.buckets <;> by_cases hf : env.fileExists = false
  all_goals
    first
      | (rw [if_pos hf] at h
         simp [hb] at h)
      | (rw [if_neg hf] at h
         cases hpoll : pollLoop env.polls with
         | none =>
           rw [hpoll] at h
           dsimp only at h
           simp [hb] at h
           simp_all
         | some jobn =>
           obtain ⟨job, n⟩ := jobn
           rw [hpoll] at h
           dsimp only at h
           cases huri : job.transcript_uri with
           | none =>
             rw [huri] at h
             dsimp only at h
             simp [hb] at h
             simp_all
           | some url =>
             rw [huri] at h
             dsimp only at h
             cases hc : convertJsonToSrt env.fetched with
             | none =>
               rw [hc] at h
               dsimp only at h
               simp [hb] at h
               simp_all
             | some cues =>
               rw [hc] at h
               dsimp only at h
               by_cases hd : params.deleteFile <;> simp [hb, hd] at h <;> simp_all)

/-- Witness for C2 at a concrete punctuation step: closing the cue built from
`word("hi",0,1)` with the punctuation item `(".",1,1)`. -/
theorem punctuation_closes_cue_witness :
    (⟨1, 1, [⟨1, "."⟩], ItemType.punctuation⟩ : IItem).type = ItemType.punctuation ∧
    (⟨1, 1, [⟨1, "."⟩], ItemType.punctuation⟩ : IItem).alternatives.head? = some ⟨1, "."⟩ ∧
    segStep (some ⟨0, 1, [⟨1, "hi"⟩], ItemType.pronunciation⟩)
        ⟨1, 1, [⟨1, "."⟩], ItemType.punctuation⟩ none ⟨[], 1, 0, "hi "⟩
      = some ⟨[⟨1, 0, 1, "hi."⟩], 2, 0, ""⟩ ∧
    ([⟨1, 0, 1, "hi."⟩] : List Cue) = [] ++ [⟨1, 0, 1, "hi."⟩] := by
  have hstep : segStep (some ⟨0, 1, [⟨1, "hi"⟩], ItemType.pronunciation⟩)
      ⟨1, 1, [⟨1, "."⟩], ItemType.punctuation⟩ none ⟨[], 1, 0, "hi "⟩
      = some ⟨[⟨1, 0, 1, "hi."⟩], 2, 0, ""⟩ := by
    norm_num [segStep]
    decide
  exact ⟨rfl, rfl, hstep,
    punctuation_closes_cue.1 ⟨0, 1, [⟨1, "hi"⟩], ItemType.pronunciation⟩
      ⟨1, 1, [⟨1, "."⟩], ItemType.punctuation⟩ none ⟨[], 1, 0, "hi "⟩
      ⟨[⟨1, 0, 1, "hi."⟩], 2, 0, ""⟩ ⟨1, "."⟩ rfl rfl hstep⟩

/-- Witness for C3 at a concrete threshold step: `word("b",6,7)` splits the
cue that started at 0 with buffered text `"a "`. -/
theorem duration_threshold_splits_witness :
    (⟨6, 7, [⟨1, "b"⟩], ItemType.pronunciation⟩ : IItem).type = ItemType.pronunciation ∧
    (⟨6, 7, [⟨1, "b"⟩], ItemType.pronunciation⟩ : IItem).end_time -
      (⟨[], 1, 0, "a "⟩ : SegState).current_start > 5 ∧
    (⟨6, 7, [⟨1, "b"⟩], ItemType.pronunciation⟩ : IItem).alternatives.head? = some ⟨1, "b"⟩ ∧
    segStep (some ⟨0, 1, [⟨1, "a"⟩], ItemType.pronunciation⟩)
        ⟨6, 7, [⟨1, "b"⟩], ItemType.pronunciation⟩ none ⟨[], 1, 0, "a "⟩
      = some ⟨[⟨1, 0, 1, "a "⟩], 2, 6, "b "⟩ ∧
    (([⟨1, 0, 1, "a "⟩] : List Cue) = [] ++ [⟨1, 0, 1, "a "⟩] ∧
      (⟨[⟨1, 0, 1, "a "⟩], 2, 6, "b "⟩ : SegState).current_start
        = (⟨6, 7, [⟨1, "b"⟩], ItemType.pronunciation⟩ : IItem).start_time) := by
  have hgt : (⟨6, 7, [⟨1, "b"⟩], ItemType.pronunciation⟩ : IItem).end_time -
      (⟨[], 1, 0, "a "⟩ : SegState).current_start > 5 := by norm_num
  have hstep : segStep (some ⟨0, 1, [⟨1, "a"⟩], ItemType.pronunciation⟩)
      ⟨6, 7, [⟨1, "b"⟩], ItemType.pronunciation⟩ none ⟨[], 1, 0, "a "⟩
      = some ⟨[⟨1, 0, 1, "a "⟩], 2, 6, "b "⟩ := by
    norm_num [segStep]
    decide
  exact ⟨rfl, hgt, rfl, hstep,
    duration_threshold_splits.1 ⟨0, 1, [⟨1, "a"⟩], ItemType.pronunciation⟩
      ⟨6, 7, [⟨1, "b"⟩], ItemType.pronunciation⟩ none ⟨[], 1, 0, "a "⟩
      ⟨[⟨1, 0, 1, "a "⟩], 2, 6, "b "⟩ ⟨1, "b"⟩ rfl hgt rfl hstep⟩

/-- Witness for C4: the single-word sequence `[word("a",0,1)]` leaves the
buffer `"a "` and emits exactly the trailing cue `(1, 0, 1, "a ")`. -/
theorem trailing_cue_emitted_witness :
    segRun none ⟨0, 1, [⟨1, "a"⟩], ItemType.pronunciation⟩ []
        ⟨[], 1, (⟨0, 1, [⟨1, "a"⟩], ItemType.pronunciation⟩ : IItem).start_time, ""⟩
      = some ⟨[], 1, 0, "a "⟩ ∧
    (⟨[], 1, 0, "a "⟩ : SegState).nextline ≠ "" ∧
    ([(⟨0, 1, [⟨1, "a"⟩], ItemType.pronunciation⟩ : IItem)]).getLast?
      = some ⟨0, 1, [⟨1, "a"⟩], ItemType.pronunciation⟩ ∧
    (⟨0, 1, [⟨1, "a"⟩], ItemType.pronunciation⟩ : IItem).type ≠ ItemType.punctuation ∧
    convertJsonToSrt [⟨0, 1, [⟨1, "a"⟩], ItemType.pronunciation⟩]
      = some ([] ++ [⟨1, 0, 1, "a "⟩]) := by
  have hrun : segRun none ⟨0, 1, [⟨1, "a"⟩], ItemType.pronunciation⟩ []
      ⟨[], 1, (⟨0, 1, [⟨1, "a"⟩], ItemType.pronunciation⟩ : IItem).start_time, ""⟩
      = some ⟨[], 1, 0, "a "⟩ := by
    norm_num [segRun, segStep]
    decide
  have hnl : (⟨[], 1, 0, "a "⟩ : SegState).nextline ≠ "" := by decide
  exact ⟨hrun, hnl, rfl, by decide,
    (trailing_cue_emitted ⟨0, 1, [⟨1, "a"⟩], ItemType.pronunciation⟩ [] ⟨[], 1, 0, "a "⟩
        hrun hnl).1
      ⟨0, 1, [⟨1, "a"⟩], ItemType.pronunciation⟩ rfl (by decide)⟩

/-- Witness for C5: the two-word sequence `[word("a",0,1), word("b",2,3)]`
has ordered times and produces the single cue `(1, 0, 3, "a b ")`, whose
index list is exactly `[1]` and whose starts are trivially non-decreasing. -/
theorem cue_indices_and_starts_witness :
    ([⟨0, 1, [⟨1, "a"⟩], ItemType.pronunciation⟩,
      ⟨2, 3, [⟨1, "b"⟩], ItemType.pronunciation⟩] : List IItem) ≠ [] ∧
    (∀ it ∈ ([⟨0, 1, [⟨1, "a"⟩], ItemType.pronunciation⟩,
        ⟨2, 3, [⟨1, "b"⟩], ItemType.pronunciation⟩] : List IItem),
      it.start_time ≤ it.end_time) ∧
    List.Chain' (fun a b => a.end_time ≤ b.start_time)
      ([⟨0, 1, [⟨1, "a"⟩], ItemType.pronunciation⟩,
        ⟨2, 3, [⟨1, "b"⟩], ItemType.pronunciation⟩] : List IItem) ∧
    convertJsonToSrt [⟨0, 1, [⟨1, "a"⟩], ItemType.pronunciation⟩,
        ⟨2, 3, [⟨1, "b"⟩], ItemType.pronunciation⟩]
      = some [⟨1, 0, 3, "a b "⟩] ∧
    (([⟨1, 0, 3, "a b "⟩] : List Cue).map Cue.index
        = List.range' 1 ([⟨1, 0, 3, "a b "⟩] : List Cue).length ∧
      List.Chain' (fun a b : ℚ => a ≤ b) (([⟨1, 0, 3, "a b "⟩] : List Cue).map Cue.start)) := by
  have hne : ([⟨0, 1, [⟨1, "a"⟩], ItemType.pronunciation⟩,
      ⟨2, 3, [⟨1, "b"⟩], ItemType.pronunciation⟩] : List IItem) ≠ [] := by simp
  have hse : ∀ it ∈ ([⟨0, 1, [⟨1, "a"⟩], ItemType.pronunciation⟩,
      ⟨2, 3, [⟨1, "b"⟩], ItemType.pronunciation⟩] : List IItem),
      it.start_time ≤ it.end_time := by
    intro it hit
    simp only [List.mem_cons, List.not_mem_nil, or_false] at hit
    rcases hit with h | h <;> subst h <;> norm_num
  have hch : List.Chain' (fun a b => a.end_time ≤ b.start_time)
      ([⟨0, 1, [⟨1, "a"⟩], ItemType.pronunciation⟩,
        ⟨2, 3, [⟨1, "b"⟩], ItemType.pronunciation⟩] : List IItem) := by
    refine List.chain'_cons.mpr ⟨?_, List.chain'_singleton _⟩
    norm_num
  have hconv : convertJsonToSrt [⟨0, 1, [⟨1, "a"⟩], ItemType.pronunciation⟩,
      ⟨2, 3, [⟨1, "b"⟩], ItemType.pronunciation⟩] = some [⟨1, 0, 3, "a b "⟩] := by
    norm_num [convertJsonToSrt, segRun, segStep, trailingEnd]
    decide
  exact ⟨hne, hse, hch, hconv,
    cue_indices_and_starts _ _ hne hse hch hconv⟩

/-- Witness for the amended C9: a concrete successful submission carries
exactly the language code `'en-US'` and the media format `'mp4'`. -/
theorem submission_lang_and_format_fixed_witness :
    Effect.startTranscriptionJob "transcribe_u_a.wav" "en-US" "mp4"
        "https://s3-us-east-1.amazonaws.com/b/a.wav"
      ∈ (transcribe ⟨"us-east-1", "u", ["b"], true, [], []⟩
          ⟨"b", "a.wav", "o.srt", false⟩).1 ∧
    ("en-US" = "en-US" ∧ "mp4" = "mp4") :=
  ⟨by decide,
    submission_lang_and_format_fixed ⟨"us-east-1", "u", ["b"], true, [], []⟩
      ⟨"b", "a.wav", "o.srt", false⟩ "transcribe_u_a.wav" "en-US" "mp4"
      "https://s3-us-east-1.amazonaws.com/b/a.wav" (by decide)⟩
